import Mathlib

/-!
Verification of the real-time chat-room coordination engine of the GlowSpace
server (the Socket.IO connection handler: auth middleware, joinRoom, leaveRoom,
typing, stopTyping, groupMessage, privateMessage and disconnect handlers).

The JavaScript state is embedded shallowly:
  * a JS `Map` keyed by strings becomes an association list (insertion order
    preserved, `set` on an existing key updates in place, otherwise appends);
  * a JS `Set` of strings becomes a duplicate-free list (`add` appends only
    when absent, `delete` erases);
  * the Mongo message collection becomes a list of `StoredMessage`, the
    history query `find({room}).sort({createdAt: 1}).limit(50)` becomes
    filter + ascending sort + take 50;
  * the fallible gateway calls (`Message.find`, `message.save`) take an
    explicit success/failure oracle argument;
  * every handler returns the updated state together with the list of
    outbound socket events it emits, in emission order.
-/

namespace GlowSpace

/-- Durable message record as persisted through the message store gateway. -/
structure StoredMessage where
  content : String
  sender : String
  room : String
  createdAt : Nat
deriving DecidableEq, Repr

/-- Membership check of an association list, mirroring JS `Map.has`. -/
def mapHas {α : Type} (m : List (String × α)) (k : String) : Bool :=
  m.any (fun p => p.1 = k)

/-- Lookup in an association list, mirroring JS `Map.get`. -/
def mapGet {α : Type} (m : List (String × α)) (k : String) : Option α :=
  (m.find? (fun p => p.1 = k)).map Prod.snd

/-- Insert or overwrite, mirroring JS `Map.set` (an existing key keeps its
position and gets the new value, a new key is appended). -/
def mapSet {α : Type} (m : List (String × α)) (k : String) (v : α) :
    List (String × α) :=
  match m with
  | [] => [(k, v)]
  | p :: rest => if p.1 = k then (k, v) :: rest else p :: mapSet rest k v

/-- Removal, mirroring JS `Map.delete`. -/
def mapDelete {α : Type} (m : List (String × α)) (k : String) :
    List (String × α) :=
  m.filter (fun p => p.1 ≠ k)

/-- In-place update of the value stored at a key (the JS idiom
`m.get(k).mutate()` on a mutable collection value). -/
def mapUpdate {α : Type} (m : List (String × α)) (k : String) (f : α → α) :
    List (String × α) :=
  m.map (fun p => if p.1 = k then (p.1, f p.2) else p)

/-- Mirroring JS `Set.add` on a set of strings: append only when absent. -/
def setAdd (ms : List String) (u : String) : List String :=
  if u ∈ ms then ms else ms ++ [u]

/-- Whole mutable state of the coordinating process: `activeUsers` (key set of
the presence map), `chatRooms` (room id to member set), `messageTimestamps`
(rate-limit windows), `typingUsers` (typing user to room) and the persisted
message store. -/
structure ServerState where
  activeUsers : List String
  chatRooms : List (String × List String)
  messageTimestamps : List (String × List Nat)
  typingUsers : List (String × String)
  store : List StoredMessage
deriving DecidableEq, Repr

/-- Outbound socket events, as emitted by the handlers. Events carrying
display-only decoration (usernames, avatars, timestamps of emission) are
recorded by their identifying fields. -/
inductive OutEvent where
  | activeUsers (users : List String)
  | chatHistory (toUser : String) (messages : List StoredMessage)
      (participants : List String)
  | userJoined (room : String) (userId : String)
  | userLeft (room : String) (userId : String)
  | updateParticipants (room : String) (participants : List String)
  | typingStatus (room : String) (typers : List String)
  | userStoppedTyping (room : String) (userId : String)
  | groupMsg (room : String) (message : StoredMessage)
  | privateMsg (toUser : String) (fromUser : String)
  | errorEvt (toUser : String) (message : String)
deriving DecidableEq, Repr

/-- Initial state of the process: every registry empty. -/
def initState : ServerState := ⟨[], [], [], [], []⟩

/-- Connection handler body (after the auth middleware): register the user in
`activeUsers` and broadcast the presence list. -/
def connect (s : ServerState) (uid : String) : ServerState × List OutEvent :=
  let active := setAdd s.activeUsers uid
  ({ s with activeUsers := active }, [OutEvent.activeUsers active])

/-- Lazy room creation of the `joinRoom` handler:
`if (!chatRooms.has(room)) chatRooms.set(room, new Set())`. -/
def ensureRoom (rs : List (String × List String)) (room : String) :
    List (String × List String) :=
  if mapHas rs room then rs else rs ++ [(room, [])]

/-- Membership effect of the `joinRoom` handler: erase the user from every
room other than the target, create the target room when absent, then add the
user to it. -/
def joinRoomRooms (rs : List (String × List String)) (uid room : String) :
    List (String × List String) :=
  mapUpdate (ensureRoom (rs.map (fun p =>
    if p.1 = room then p else (p.1, p.2.erase uid))) room) room
    (fun ms => setAdd ms uid)

/-- History query of the `joinRoom` handler:
`Message.find({room}).sort({createdAt: 1}).limit(50)` — the room transcript
sorted ascending by creation time, truncated to the first 50 entries. -/
def historyQuery (store : List StoredMessage) (room : String) :
    List StoredMessage :=
  ((store.filter (fun m => m.room = room)).insertionSort
    (fun a b => a.createdAt ≤ b.createdAt)).take 50

/-- The `joinRoom` handler. The membership mutations (implicit leaves with
their `userLeft` notifications, then join) happen before the awaited gateway
history query; when the query fails the catch block emits a single error to
the caller, after the mutations already took effect. -/
def joinRoom (s : ServerState) (uid room : String) (gatewayOk : Bool) :
    ServerState × List OutEvent :=
  let leaveEvents := s.chatRooms.filterMap (fun p =>
    if uid ∈ p.2 ∧ p.1 ≠ room then some (OutEvent.userLeft p.1 uid) else none)
  let rooms := joinRoomRooms s.chatRooms uid room
  let s1 := { s with chatRooms := rooms }
  if gatewayOk then
    let messages := historyQuery s.store room
    let participants := (mapGet rooms room).getD []
    (s1, leaveEvents ++
      [OutEvent.chatHistory uid messages participants,
       OutEvent.userJoined room uid,
       OutEvent.updateParticipants room participants])
  else
    (s1, leaveEvents ++ [OutEvent.errorEvt uid "Failed to join room"])

/-- The `leaveRoom` handler: remove the user from the room when it exists,
delete the room when it becomes empty, and notify the room. -/
def leaveRoom (s : ServerState) (uid room : String) :
    ServerState × List OutEvent :=
  let rooms :=
    if mapHas s.chatRooms room then
      let ms := ((mapGet s.chatRooms room).getD []).erase uid
      if ms.length = 0 then mapDelete s.chatRooms room
      else mapUpdate s.chatRooms room (fun _ => ms)
    else s.chatRooms
  ({ s with chatRooms := rooms }, [OutEvent.userLeft room uid])

/-- Typing snapshot for a room: the typing users currently mapped to it, in
map order (the handler decorates each with a username for display). -/
def typingSnapshot (t : List (String × String)) (room : String) :
    List String :=
  t.filterMap (fun p => if p.2 = room then some p.1 else none)

/-- The `typing` handler: guarded by `room && chatRooms.has(room)`; records or
clears the typing mark and broadcasts the recomputed snapshot to the room. -/
def typing (s : ServerState) (uid room : String) (isTyping : Bool) :
    ServerState × List OutEvent :=
  if room ≠ "" ∧ mapHas s.chatRooms room then
    let t := if isTyping then mapSet s.typingUsers uid room
             else mapDelete s.typingUsers uid
    ({ s with typingUsers := t },
     [OutEvent.typingStatus room (typingSnapshot t room)])
  else (s, [])

/-- The `stopTyping` handler, faithful to the source: the guard checks
`typingUsers.has(room)` (the room id against user-id keys) before deleting
the sender's mark. -/
def stopTyping (s : ServerState) (uid room : String) :
    ServerState × List OutEvent :=
  if mapHas s.typingUsers room then
    ({ s with typingUsers := mapDelete s.typingUsers uid },
     [OutEvent.userStoppedTyping room uid])
  else (s, [])

/-- Sliding rate window: the recorded timestamps still counted at time `now`,
per `userTimestamps.filter(time => timestamp - time < 1000)`. -/
def rateWindow (ts : List Nat) (now : Nat) : List Nat :=
  ts.filter (fun t => now - t < 1000)

/-- The `groupMessage` handler: validation (payload present, room exists,
sender is a member), rate limiting, then the awaited durable write followed by
the room broadcast; any thrown error becomes one error event to the sender. -/
def groupMessage (s : ServerState) (uid room content : String) (now : Nat)
    (saveErr : Option String) : ServerState × List OutEvent :=
  if room = "" ∨ content = "" then
    (s, [OutEvent.errorEvt uid "Room and content are required"])
  else if ¬ mapHas s.chatRooms room then
    (s, [OutEvent.errorEvt uid "Room does not exist"])
  else if uid ∉ (mapGet s.chatRooms room).getD [] then
    (s, [OutEvent.errorEvt uid "User is not in this room"])
  else
    let userTimestamps := (mapGet s.messageTimestamps uid).getD []
    if (rateWindow userTimestamps now).length ≥ 5 then
      (s, [OutEvent.errorEvt uid "Message rate limit exceeded"])
    else
      let newTs := mapSet s.messageTimestamps uid (userTimestamps ++ [now])
      let s1 := { s with messageTimestamps := newTs }
      match saveErr with
      | some e => (s1, [OutEvent.errorEvt uid e])
      | none =>
        let msg : StoredMessage := ⟨content, uid, room, now⟩
        ({ s1 with store := s1.store ++ [msg] }, [OutEvent.groupMsg room msg])

/-- The `privateMessage` handler: best-effort delivery to the recipient's live
connection when one exists; silently dropped otherwise. -/
def privateMessage (s : ServerState) (uid toUser : String) :
    ServerState × List OutEvent :=
  if toUser ∈ s.activeUsers then (s, [OutEvent.privateMsg toUser uid])
  else (s, [])

/-- The `disconnect` handler: unregister presence and re-broadcast it, erase
the user from every room (notifying each), and clear the typing mark. -/
def disconnect (s : ServerState) (uid : String) :
    ServerState × List OutEvent :=
  let active := s.activeUsers.erase uid
  let leaveEvents := s.chatRooms.filterMap (fun p =>
    if uid ∈ p.2 then some (OutEvent.userLeft p.1 uid) else none)
  let rooms := s.chatRooms.map (fun p => (p.1, p.2.erase uid))
  ({ activeUsers := active, chatRooms := rooms,
     messageTimestamps := s.messageTimestamps,
     typingUsers := mapDelete s.typingUsers uid,
     store := s.store },
   OutEvent.activeUsers active :: leaveEvents)

/-- Inbound connection events dispatched by the coordinator. -/
inductive InEvent where
  | connectEvt (uid : String)
  | joinRoomEvt (uid room : String) (gatewayOk : Bool)
  | leaveRoomEvt (uid room : String)
  | typingEvt (uid room : String) (isTyping : Bool)
  | stopTypingEvt (uid room : String)
  | groupMessageEvt (uid room content : String) (now : Nat)
      (saveErr : Option String)
  | privateMessageEvt (uid toUser : String)
  | disconnectEvt (uid : String)
deriving DecidableEq, Repr

/-- One dispatch of an inbound event to its handler. -/
def step (s : ServerState) (e : InEvent) : ServerState × List OutEvent :=
  match e with
  | .connectEvt uid => connect s uid
  | .joinRoomEvt uid room ok => joinRoom s uid room ok
  | .leaveRoomEvt uid room => leaveRoom s uid room
  | .typingEvt uid room b => typing s uid room b
  | .stopTypingEvt uid room => stopTyping s uid room
  | .groupMessageEvt uid room content now saveErr =>
      groupMessage s uid room content now saveErr
  | .privateMessageEvt uid toUser => privateMessage s uid toUser
  | .disconnectEvt uid => disconnect s uid

/-- States reachable from process start by any sequence of events. -/
inductive Reachable : ServerState → Prop where
  | init : Reachable initState
  | next {s : ServerState} (e : InEvent) :
      Reachable s → Reachable (step s e).1

/-- Outcome of the Socket.IO auth middleware for one connection attempt. -/
inductive AuthResult where
  | guest (guestId : String)
  | authenticated (userId : String)
  | rejected (message : String)
deriving DecidableEq, Repr

/-- The `io.use` auth middleware. `token` is the presented credential;
`verify` abstracts `jwt.verify` (`none` when verification throws, otherwise
the decoded user id); `lookup` abstracts the awaited `findById`
(outer `none` when the lookup itself throws — caught by the same catch as a
verification failure — and `some none` when no record exists). `guestId` is
the freshly minted time-derived guest identity. -/
def authMiddleware (token : Option String) (verify : String → Option String)
    (lookup : String → Option (Option String)) (guestId : String) :
    AuthResult :=
  match token with
  | none => AuthResult.guest guestId
  | some t =>
    match verify t with
    | none => AuthResult.guest guestId
    | some decodedId =>
      match lookup decodedId with
      | none => AuthResult.guest guestId
      | some none => AuthResult.rejected "Authentication error: User not found"
      | some (some userId) => AuthResult.authenticated userId

/-- Spec-side reading of the join snapshot, following the spec words "the
last 50 persisted messages for `roomId` ordered oldest-first": sort the room
transcript ascending by creation time and keep the final 50 entries. Stated
only for comparison against `historyQuery`, which is translated from the
source. -/
def specLastFiftyOldestFirst (store : List StoredMessage) (room : String) :
    List StoredMessage :=
  let sorted := (store.filter (fun m => m.room = room)).insertionSort
    (fun a b => a.createdAt ≤ b.createdAt)
  sorted.drop (sorted.length - 50)

/-- Well-formedness of the room table: room keys are pairwise distinct (it
models a JS `Map`) and each member list is duplicate-free (it models a JS
`Set`). -/
def RoomsWF (rs : List (String × List String)) : Prop :=
  (rs.map Prod.fst).Nodup ∧ ∀ p ∈ rs, p.2.Nodup

/-- A participant is a member of at most one room of the table. -/
def AtMostOneRoom (rs : List (String × List String)) (u : String) : Prop :=
  rs.countP (fun p => decide (u ∈ p.2)) ≤ 1

/-- Structural invariant of the coordinator state: the presence key set is
duplicate-free, the room table is well formed, and every participant sits in
at most one room. -/
def Inv (s : ServerState) : Prop :=
  s.activeUsers.Nodup ∧ RoomsWF s.chatRooms ∧ ∀ u, AtMostOneRoom s.chatRooms u

/-- Fixture: connected user `u` alone in room `r1`, no recorded timestamps. -/
def stateU1 : ServerState := ⟨["u"], [("r1", ["u"])], [], [], []⟩

/-- Fixture: connected user `u` in no room (idle after connect). -/
def stateU0 : ServerState := ⟨["u"], [], [], [], []⟩

/-- Fixture: `u` alone in `r1` with five admitted message timestamps inside
one second of time 900. -/
def stateRate : ServerState :=
  ⟨["u"], [("r1", ["u"])], [("u", [100, 200, 300, 400, 500])], [], []⟩

/-- Fixture transcript: 51 persisted messages for room `r1`, creation times
0 through 50. -/
def store51 : List StoredMessage :=
  (List.range 51).map (fun i => ⟨"m", "alice", "r1", i⟩)

/-- Fixture: `u` alone in `r1` over the 51-message transcript. -/
def state51 : ServerState := ⟨["u"], [("r1", ["u"])], [], [], store51⟩

/-- Fixture: the reachable state produced by connecting `u` and joining
`r1`. -/
def state9 : ServerState :=
  (step (step initState (InEvent.connectEvt "u")).1
    (InEvent.joinRoomEvt "u" "r1" true)).1

/-- Fixture: the reachable state produced by connecting `u`, joining `r1`
and starting to type there. -/
def state8 : ServerState :=
  (step (step (step initState (InEvent.connectEvt "u")).1
    (InEvent.joinRoomEvt "u" "r1" true)).1 (InEvent.typingEvt "u" "r1" true)).1

theorem mapHas_iff_mem_keys {α : Type} (m : List (String × α)) (k : String) :
    mapHas m k = true ↔ k ∈ m.map Prod.fst := by
  simp only [mapHas, List.any_eq_true, List.mem_map, decide_eq_true_eq]

theorem mapGet_eq_some_of_has {α : Type} {m : List (String × α)} {k : String}
    (h : mapHas m k = true) : ∃ v, mapGet m k = some v := by
  induction m with
  | nil => simp [mapHas] at h
  | cons p rest ih =>
    by_cases hp : p.1 = k
    · exact ⟨p.2, by simp [mapGet, List.find?_cons, hp]⟩
    · have h2 : mapHas rest k = true := by
        simpa [mapHas, hp] using h
      obtain ⟨v, hv⟩ := ih h2
      exact ⟨v, by simpa [mapGet, List.find?_cons, hp] using hv⟩

theorem mapGet_mapSet_self {α : Type} (m : List (String × α)) (k : String)
    (v : α) : mapGet (mapSet m k v) k = some v := by
  induction m with
  | nil => simp [mapSet, mapGet]
  | cons p rest ih =>
    by_cases hp : p.1 = k
    · simp [mapSet, hp, mapGet, List.find?_cons]
    · simpa [mapSet, hp, mapGet, List.find?_cons] using ih

theorem mapGet_mapUpdate_self {α : Type} (m : List (String × α)) (k : String)
    (f : α → α) : mapGet (mapUpdate m k f) k = (mapGet m k).map f := by
  induction m with
  | nil => simp [mapUpdate, mapGet]
  | cons p rest ih =>
    by_cases hp : p.1 = k
    · simp [mapUpdate, hp, mapGet, List.find?_cons]
    · simpa [mapUpdate, hp, mapGet, List.find?_cons] using ih

theorem mapUpdate_keys {α : Type} (m : List (String × α)) (k : String)
    (f : α → α) : (mapUpdate m k f).map Prod.fst = m.map Prod.fst := by
  simp only [mapUpdate, List.map_map]
  apply List.map_congr_left
  intro p _
  by_cases hp : p.1 = k <;> simp [hp]

theorem mapHas_mapDelete_self {α : Type} (m : List (String × α)) (k : String) :
    mapHas (mapDelete m k) k = false := by
  simp only [mapHas, mapDelete, List.any_eq_false]
  intro p hp
  have := (List.mem_filter.mp hp).2
  simpa using this

theorem keys_mapDelete_keyless {α : Type} (m : List (String × α)) (k : String) :
    ∀ p ∈ mapDelete m k, p.1 ≠ k := by
  intro p hp
  have := (List.mem_filter.mp hp).2
  simpa using this

theorem mem_setAdd_self (ms : List String) (u : String) : u ∈ setAdd ms u := by
  by_cases h : u ∈ ms <;> simp [setAdd, h]

theorem mem_setAdd_iff (ms : List String) (u v : String) :
    v ∈ setAdd ms u ↔ v ∈ ms ∨ v = u := by
  by_cases h : u ∈ ms
  · simp only [setAdd, if_pos h]
    constructor
    · exact Or.inl
    · rintro (hv | rfl) <;> [exact hv; exact h]
  · simp [setAdd, if_neg h]

theorem setAdd_nodup {ms : List String} (h : ms.Nodup) (u : String) :
    (setAdd ms u).Nodup := by
  by_cases hm : u ∈ ms
  · simpa [setAdd, hm] using h
  · rw [setAdd, if_neg hm]
    exact List.Nodup.append h (List.nodup_singleton u)
      (fun x hx hxu => hm ((List.mem_singleton.mp hxu) ▸ hx))

theorem setAdd_eq_of_mem {ms : List String} {u : String} (h : u ∈ ms) :
    setAdd ms u = ms := by
  simp [setAdd, h]

theorem mapHas_ensureRoom_self (rs : List (String × List String))
    (room : String) : mapHas (ensureRoom rs room) room = true := by
  unfold ensureRoom
  by_cases h : mapHas rs room = true
  · rw [if_pos h]
    exact h
  · rw [if_neg h]
    rw [mapHas_iff_mem_keys, List.map_append]
    simp

theorem mapHas_joinRoomRooms_self (rs : List (String × List String))
    (uid room : String) : mapHas (joinRoomRooms rs uid room) room = true := by
  unfold joinRoomRooms
  rw [mapHas_iff_mem_keys, mapUpdate_keys, ← mapHas_iff_mem_keys]
  exact mapHas_ensureRoom_self _ room

theorem mem_joinRoomRooms_self (rs : List (String × List String))
    (uid room : String) :
    uid ∈ (mapGet (joinRoomRooms rs uid room) room).getD [] := by
  unfold joinRoomRooms
  obtain ⟨ms, hms⟩ := mapGet_eq_some_of_has (mapHas_ensureRoom_self
    (rs.map (fun p => if p.1 = room then p else (p.1, p.2.erase uid))) room)
  rw [mapGet_mapUpdate_self, hms]
  exact mem_setAdd_self ms uid

/-- C6: a connection whose credential fails JWT verification is degraded to a
fresh guest and never rejected; a rejection is produced exactly when the
token verifies but the auth store holds no record for the decoded id. -/
theorem c6_invalid_token_degrades_to_guest (token : Option String)
    (verify : String → Option String)
    (lookup : String → Option (Option String)) (guestId : String) :
    (∀ t, token = some t → verify t = none →
      authMiddleware token verify lookup guestId = AuthResult.guest guestId) ∧
    (∀ m, authMiddleware token verify lookup guestId = AuthResult.rejected m →
      ∃ t d, token = some t ∧ verify t = some d ∧ lookup d = some none ∧
        m = "Authentication error: User not found") := by
  constructor
  · rintro t rfl hv
    simp [authMiddleware, hv]
  · intro m h
    cases token with
    | none => simp [authMiddleware] at h
    | some t =>
      cases hv : verify t with
      | none => simp [authMiddleware, hv] at h
      | some d =>
        cases hl : lookup d with
        | none => simp [authMiddleware, hv, hl] at h
        | some u =>
          cases u with
          | none =>
            refine ⟨t, d, rfl, hv, hl, ?_⟩
            simpa [authMiddleware, hv, hl] using h.symm
          | some userId => simp [authMiddleware, hv, hl] at h

theorem c6_witness :
    authMiddleware (some "tampered-token") (fun _ => none)
      (fun _ => some none) "guest-1700000000000" =
      AuthResult.guest "guest-1700000000000" :=
  (c6_invalid_token_degrades_to_guest (some "tampered-token") (fun _ => none)
    (fun _ => some none) "guest-1700000000000").1 "tampered-token" rfl rfl

/-- C1: with the groupMessage preconditions and the rate limit satisfied, the
room broadcast happens exactly when the durable write succeeds, and the
broadcast message is the persisted one; on persistence failure the handler
emits a single error event to the sender, appends nothing to the store, and
performs no broadcast and no retry. -/
theorem c1_broadcast_only_after_persist (s : ServerState)
    (uid room content : String) (now : Nat) (saveErr : Option String)
    (hroom : room ≠ "") (hcontent : content ≠ "")
    (hhas : mapHas s.chatRooms room = true)
    (hmem : uid ∈ (mapGet s.chatRooms room).getD [])
    (hrate : (rateWindow ((mapGet s.messageTimestamps uid).getD [])
      now).length < 5) :
    (saveErr = none →
      (groupMessage s uid room content now saveErr).1.store =
        s.store ++ [⟨content, uid, room, now⟩] ∧
      (groupMessage s uid room content now saveErr).2 =
        [OutEvent.groupMsg room ⟨content, uid, room, now⟩]) ∧
    (∀ e, saveErr = some e →
      (groupMessage s uid room content now saveErr).1.store = s.store ∧
      (groupMessage s uid room content now saveErr).2 =
        [OutEvent.errorEvt uid e]) := by
  have hor : ¬ (room = "" ∨ content = "") := by
    rintro (h | h)
    · exact hroom h
    · exact hcontent h
  constructor
  · rintro rfl
    constructor <;> simp [groupMessage, hor, hhas, hmem, Nat.not_le.mpr hrate]
  · rintro e rfl
    constructor <;> simp [groupMessage, hor, hhas, hmem, Nat.not_le.mpr hrate]

theorem c1_witness :
    (groupMessage stateU1 "u" "r1" "hi" 5 (some "DB write failed")).1.store =
      stateU1.store ∧
    (groupMessage stateU1 "u" "r1" "hi" 5 (some "DB write failed")).2 =
      [OutEvent.errorEvt "u" "DB write failed"] :=
  (c1_broadcast_only_after_persist stateU1 "u" "r1" "hi" 5
    (some "DB write failed") (by decide) (by decide) (by decide) (by decide)
    (by decide)).2 "DB write failed" rfl

/-- C3: with the earlier groupMessage checks passing, an attempt at time
`now` is admitted exactly when fewer than five recorded timestamps lie in the
trailing 1000ms window ending at `now`; on admission `now` is appended to the
sender's timestamp sequence, and a denial leaves the entire state unchanged
and sends the rate-limit error to the sender alone. -/
theorem c3_sliding_window_rate_limit (s : ServerState)
    (uid room content : String) (now : Nat) (saveErr : Option String)
    (hroom : room ≠ "") (hcontent : content ≠ "")
    (hhas : mapHas s.chatRooms room = true)
    (hmem : uid ∈ (mapGet s.chatRooms room).getD []) :
    ((rateWindow ((mapGet s.messageTimestamps uid).getD []) now).length < 5 →
      mapGet (groupMessage s uid room content now
          saveErr).1.messageTimestamps uid =
        some (((mapGet s.messageTimestamps uid).getD []) ++ [now])) ∧
    (5 ≤ (rateWindow ((mapGet s.messageTimestamps uid).getD [])
        now).length →
      (groupMessage s uid room content now saveErr).1 = s ∧
      (groupMessage s uid room content now saveErr).2 =
        [OutEvent.errorEvt uid "Message rate limit exceeded"]) := by
  have hor : ¬ (room = "" ∨ content = "") := by
    rintro (h | h)
    · exact hroom h
    · exact hcontent h
  constructor
  · intro hlt
    cases saveErr <;>
      simp [groupMessage, hor, hhas, hmem, Nat.not_le.mpr hlt,
        mapGet_mapSet_self]
  · intro hge
    constructor <;> simp [groupMessage, hor, hhas, hmem, hge]

theorem c3_witness :
    (groupMessage stateRate "u" "r1" "hello" 900 none).1 = stateRate ∧
    (groupMessage stateRate "u" "r1" "hello" 900 none).2 =
      [OutEvent.errorEvt "u" "Message rate limit exceeded"] :=
  (c3_sliding_window_rate_limit stateRate "u" "r1" "hello" 900 none
    (by decide) (by decide) (by decide) (by decide)).2 (by decide)

/-- C10: every failing groupMessage — missing payload field, unknown room,
sender not a member, or rate-limit denial — leaves the whole coordinator
state unchanged (nothing persisted or broadcast, no timestamp recorded, no
membership or typing change) and emits exactly one error event, addressed to
the sender. -/
theorem c10_failed_message_no_effect (s : ServerState)
    (uid room content : String) (now : Nat) (saveErr : Option String)
    (h : room = "" ∨ content = "" ∨ mapHas s.chatRooms room = false ∨
      uid ∉ (mapGet s.chatRooms room).getD [] ∨
      5 ≤ (rateWindow ((mapGet s.messageTimestamps uid).getD [])
        now).length) :
    (groupMessage s uid room content now saveErr).1 = s ∧
    ∃ m, (groupMessage s uid room content now saveErr).2 =
      [OutEvent.errorEvt uid m] := by
  by_cases h1 : room = "" ∨ content = ""
  · refine ⟨?_, "Room and content are required", ?_⟩ <;>
      simp [groupMessage, h1]
  · by_cases h2 : mapHas s.chatRooms room = true
    · by_cases h3 : uid ∈ (mapGet s.chatRooms room).getD []
      · have h5 : 5 ≤ (rateWindow ((mapGet s.messageTimestamps uid).getD [])
            now).length := by
          rcases h with h | h | h | h | h
          · exact absurd (Or.inl h) h1
          · exact absurd (Or.inr h) h1
          · simp [h2] at h
          · exact absurd h3 h
          · exact h
        refine ⟨?_, "Message rate limit exceeded", ?_⟩ <;>
          simp [groupMessage, h1, h2, h3, h5]
      · refine ⟨?_, "User is not in this room", ?_⟩ <;>
          simp [groupMessage, h1, h2, h3]
    · refine ⟨?_, "Room does not exist", ?_⟩ <;>
        simp [groupMessage, h1, h2]

theorem c10_witness :
    (groupMessage stateU1 "u" "zzz" "hi" 0 none).1 = stateU1 ∧
    ∃ m, (groupMessage stateU1 "u" "zzz" "hi" 0 none).2 =
      [OutEvent.errorEvt "u" m] :=
  c10_failed_message_no_effect stateU1 "u" "zzz" "hi" 0 none
    (Or.inr (Or.inr (Or.inl (by decide))))

theorem mapHas_of_mapGet_some {α : Type} {m : List (String × α)} {k : String}
    {v : α} (h : mapGet m k = some v) : mapHas m k = true := by
  unfold mapGet at h
  cases hf : m.find? (fun p => p.1 = k) with
  | none => rw [hf] at h; cases h
  | some p =>
    have hp := List.mem_of_find?_eq_some hf
    have hpk : p.1 = k := by simpa using List.find?_some hf
    rw [mapHas_iff_mem_keys]
    exact hpk ▸ List.mem_map_of_mem Prod.fst hp

theorem erased_keys_eq (rs : List (String × List String)) (uid room : String) :
    (rs.map (fun p =>
      if p.1 = room then p else (p.1, p.2.erase uid))).map Prod.fst =
      rs.map Prod.fst := by
  rw [List.map_map]
  apply List.map_congr_left
  intro p _
  by_cases h : p.1 = room <;> simp [h]

theorem keys_joinRoomRooms_sub (rs : List (String × List String))
    (uid room2 k : String) (hk : k ∈ rs.map Prod.fst) :
    k ∈ (joinRoomRooms rs uid room2).map Prod.fst := by
  unfold joinRoomRooms ensureRoom
  rw [mapUpdate_keys]
  by_cases h : mapHas (rs.map (fun p =>
      if p.1 = room2 then p else (p.1, p.2.erase uid))) room2 = true
  · rw [if_pos h, erased_keys_eq]
    exact hk
  · rw [if_neg h, List.map_append, erased_keys_eq]
    exact List.mem_append_left _ hk

/-- C5 is refuted at a concrete input: user `u`, idle in no room, joins `r1`
while the gateway is unreachable; the handler emits the error to `u` only,
yet the Room Membership Table — empty before the call — now contains `u` as
a member of `r1`: the failed join did change the table. -/
theorem c5_counterexample :
    (joinRoom stateU0 "u" "r1" false).2 =
      [OutEvent.errorEvt "u" "Failed to join room"] ∧
    stateU0.chatRooms = [] ∧
    (joinRoom stateU0 "u" "r1" false).1.chatRooms = [("r1", ["u"])] := by
  refine ⟨?_, rfl, ?_⟩ <;> decide

/-- C5 (amended): when the gateway history query fails during joinRoom, the
only events besides the already-sent implicit-leave notifications are a
single `Failed to join room` error to the requesting connection — nothing is
broadcast to the room — but the membership mutation has already been applied:
after the failed join the user is a member of the target room. -/
theorem c5_amended_join_error_after_mutation (s : ServerState)
    (uid room : String) :
    uid ∈ (mapGet (joinRoom s uid room false).1.chatRooms room).getD [] ∧
    (joinRoom s uid room false).1.chatRooms =
      joinRoomRooms s.chatRooms uid room ∧
    OutEvent.errorEvt uid "Failed to join room" ∈
      (joinRoom s uid room false).2 ∧
    ∀ e ∈ (joinRoom s uid room false).2,
      e = OutEvent.errorEvt uid "Failed to join room" ∨
      ∃ r2, e = OutEvent.userLeft r2 uid := by
  refine ⟨?_, ?_, ?_, ?_⟩
  · simpa [joinRoom] using mem_joinRoomRooms_self s.chatRooms uid room
  · simp [joinRoom]
  · simp [joinRoom]
  · intro e he
    simp only [joinRoom, Bool.false_eq_true, if_false, List.mem_append] at he
    rcases he with he | he
    · right
      obtain ⟨p, _, hpe⟩ := List.mem_filterMap.mp he
      by_cases hc : uid ∈ p.2 ∧ p.1 ≠ room
      · rw [if_pos hc] at hpe
        exact ⟨p.1, (Option.some.inj hpe).symm⟩
      · rw [if_neg hc] at hpe
        cases hpe
    · left
      simpa using he

theorem c5_witness :
    "u" ∈ (mapGet (joinRoom stateU0 "u" "r1" false).1.chatRooms "r1").getD []
    :=
  (c5_amended_join_error_after_mutation stateU0 "u" "r1").1

/-- C7 is refuted at a concrete input: `u` is the only member of `r1`; after
`u` disconnects, and likewise after `u` joins `r2` (the implicit leave), the
table still holds an entry for `r1` with an empty member set. -/
theorem c7_counterexample :
    (disconnect stateU1 "u").1.chatRooms = [("r1", [])] ∧
    (joinRoom stateU1 "u" "r2" true).1.chatRooms =
      [("r1", []), ("r2", ["u"])] := by
  constructor <;> decide

/-- C7 (amended): only the explicit leaveRoom handler deletes a room entry
when the last member leaves; the implicit leave of joinRoom and the
disconnect handler empty the member set but retain the room entry. -/
theorem c7_amended_empty_room_deleted_only_on_leave (s : ServerState)
    (uid room : String) (ms : List String)
    (hg : mapGet s.chatRooms room = some ms)
    (hlast : ms.erase uid = []) :
    mapHas (leaveRoom s uid room).1.chatRooms room = false ∧
    mapHas (disconnect s uid).1.chatRooms room = true ∧
    ∀ room2, mapHas (joinRoom s uid room2 true).1.chatRooms room = true := by
  have hhas := mapHas_of_mapGet_some hg
  refine ⟨?_, ?_, ?_⟩
  · have hdel : (leaveRoom s uid room).1.chatRooms =
        mapDelete s.chatRooms room := by
      simp [leaveRoom, hhas, hg, hlast]
    rw [hdel]
    exact mapHas_mapDelete_self _ _
  · have hkeys : (disconnect s uid).1.chatRooms.map Prod.fst =
        s.chatRooms.map Prod.fst := by
      simp only [disconnect, List.map_map]
      rfl
    rw [mapHas_iff_mem_keys, hkeys]
    exact (mapHas_iff_mem_keys _ _).mp hhas
  · intro room2
    have hjoin : (joinRoom s uid room2 true).1.chatRooms =
        joinRoomRooms s.chatRooms uid room2 := by
      simp [joinRoom]
    rw [hjoin, mapHas_iff_mem_keys]
    exact keys_joinRoomRooms_sub s.chatRooms uid room2 room
      ((mapHas_iff_mem_keys _ _).mp hhas)

theorem c7_witness :
    mapHas (leaveRoom stateU1 "u" "r1").1.chatRooms "r1" = false ∧
    mapHas (disconnect stateU1 "u").1.chatRooms "r1" = true :=
  ⟨(c7_amended_empty_room_deleted_only_on_leave stateU1 "u" "r1" ["u"]
      (by decide) (by decide)).1,
   (c7_amended_empty_room_deleted_only_on_leave stateU1 "u" "r1" ["u"]
      (by decide) (by decide)).2.1⟩

theorem mem_of_mapGet_some {α : Type} {m : List (String × α)} {k : String}
    {v : α} (h : mapGet m k = some v) : (k, v) ∈ m := by
  unfold mapGet at h
  cases hf : m.find? (fun p => p.1 = k) with
  | none => rw [hf] at h; cases h
  | some p =>
    rw [hf] at h
    have hp := List.mem_of_find?_eq_some hf
    have hpk : p.1 = k := by simpa using List.find?_some hf
    have hpv : p.2 = v := by simpa using h
    have he : (k, v) = p := by rw [← hpk, ← hpv]
    rw [he]
    exact hp

theorem mapGet_of_mem_of_nodup {α : Type} {m : List (String × α)}
    (hn : (m.map Prod.fst).Nodup) {p : String × α} (hp : p ∈ m) :
    mapGet m p.1 = some p.2 := by
  induction m with
  | nil => cases hp
  | cons q rest ih =>
    rcases List.mem_cons.mp hp with rfl | hp2
    · simp [mapGet, List.find?_cons]
    · have hq : q.1 ≠ p.1 := by
        intro he
        rw [List.map_cons] at hn
        exact (List.nodup_cons.mp hn).1
          (he ▸ List.mem_map_of_mem Prod.fst hp2)
      have hn2 := (List.nodup_cons.mp (by rwa [List.map_cons] at hn)).2
      simpa [mapGet, List.find?_cons, hq] using ih hn2 hp2

theorem eq_of_mem_of_length_le_one {α : Type} {l : List α}
    (h : l.length ≤ 1) {a b : α} (ha : a ∈ l) (hb : b ∈ l) : a = b := by
  cases l with
  | nil => cases ha
  | cons x t =>
    cases t with
    | nil => rw [List.mem_singleton.mp ha, List.mem_singleton.mp hb]
    | cons y t2 => simp at h

theorem countP_key_le_one {keys : List String} (h : keys.Nodup)
    (room : String) : keys.countP (fun k => decide (k = room)) ≤ 1 := by
  induction keys with
  | nil => simp
  | cons k rest ih =>
    rw [List.countP_cons]
    obtain ⟨hk, hrest⟩ := List.nodup_cons.mp h
    by_cases hkr : k = room
    · subst hkr
      have hz : rest.countP (fun k2 => decide (k2 = k)) = 0 := by
        rw [List.countP_eq_zero]
        intro a ha
        simp only [decide_eq_true_eq]
        intro e
        exact hk (e ▸ ha)
      simp [hz]
    · simpa [hkr] using ih hrest

theorem roomsWF_eraseAll {rs : List (String × List String)} (h : RoomsWF rs)
    (uid : String) : RoomsWF (rs.map (fun p => (p.1, p.2.erase uid))) := by
  obtain ⟨hk, hm⟩ := h
  constructor
  · rw [List.map_map]
    exact hk
  · intro p hp
    obtain ⟨q, hq, rfl⟩ := List.mem_map.mp hp
    exact (hm q hq).erase uid

theorem atMostOne_eraseAll {rs : List (String × List String)} {u : String}
    (h : AtMostOneRoom rs u) (uid : String) :
    AtMostOneRoom (rs.map (fun p => (p.1, p.2.erase uid))) u := by
  unfold AtMostOneRoom at *
  rw [List.countP_map]
  refine le_trans (List.countP_mono_left ?_) h
  intro p _ hb
  simp only [Function.comp_apply, decide_eq_true_eq] at hb ⊢
  exact List.mem_of_mem_erase hb

theorem roomsWF_mapDelete {rs : List (String × List String)} (h : RoomsWF rs)
    (k : String) : RoomsWF (mapDelete rs k) := by
  obtain ⟨hk, hm⟩ := h
  constructor
  · exact List.Nodup.sublist (List.Sublist.map _ (List.filter_sublist _)) hk
  · intro p hp
    exact hm p (List.mem_of_mem_filter hp)

theorem atMostOne_mapDelete {rs : List (String × List String)} {u : String}
    (h : AtMostOneRoom rs u) (k : String) :
    AtMostOneRoom (mapDelete rs k) u := by
  unfold AtMostOneRoom at *
  refine le_trans ?_ h
  unfold mapDelete
  rw [List.countP_filter]
  exact List.countP_mono_left (fun p _ hb => (Bool.and_eq_true _ _ |>.mp hb).1)

theorem roomsWF_mapUpdate_const {rs : List (String × List String)}
    (hwf : RoomsWF rs) {room : String} {ms0 : List String}
    (hg : mapGet rs room = some ms0) (uid : String) :
    RoomsWF (mapUpdate rs room (fun _ => ms0.erase uid)) := by
  obtain ⟨hk, hm⟩ := hwf
  have hms0 : ms0.Nodup := hm _ (mem_of_mapGet_some hg)
  constructor
  · rw [mapUpdate_keys]
    exact hk
  · intro p hp
    obtain ⟨q, hq, rfl⟩ := List.mem_map.mp hp
    by_cases hqr : q.1 = room
    · rw [if_pos hqr]
      exact hms0.erase uid
    · rw [if_neg hqr]
      exact hm q hq

theorem atMostOne_mapUpdate_erase {rs : List (String × List String)}
    (hwf : RoomsWF rs) {room : String} {ms0 : List String}
    (hg : mapGet rs room = some ms0) (uid u : String)
    (hone : AtMostOneRoom rs u) :
    AtMostOneRoom (mapUpdate rs room (fun _ => ms0.erase uid)) u := by
  unfold AtMostOneRoom at *
  unfold mapUpdate
  rw [List.countP_map]
  refine le_trans (List.countP_mono_left ?_) hone
  intro q hq hb
  simp only [Function.comp_apply, decide_eq_true_eq] at hb ⊢
  by_cases hqr : q.1 = room
  · rw [if_pos hqr] at hb
    have hq2 : mapGet rs q.1 = some q.2 := mapGet_of_mem_of_nodup hwf.1 hq
    rw [hqr] at hq2
    exact (Option.some.inj (hg.symm.trans hq2)) ▸ List.mem_of_mem_erase hb
  · rw [if_neg hqr] at hb
    exact hb

theorem roomsWF_erased {rs : List (String × List String)} (h : RoomsWF rs)
    (uid room : String) :
    RoomsWF (rs.map (fun p =>
      if p.1 = room then p else (p.1, p.2.erase uid))) := by
  obtain ⟨hk, hm⟩ := h
  constructor
  · rw [erased_keys_eq]
    exact hk
  · intro p hp
    obtain ⟨q, hq, rfl⟩ := List.mem_map.mp hp
    by_cases hqr : q.1 = room
    · rw [if_pos hqr]
      exact hm q hq
    · rw [if_neg hqr]
      exact (hm q hq).erase uid

theorem roomsWF_append_new {rs1 : List (String × List String)}
    (h : RoomsWF rs1) {room : String} (hnr : room ∉ rs1.map Prod.fst) :
    RoomsWF (rs1 ++ [(room, [])]) := by
  obtain ⟨hk, hm⟩ := h
  constructor
  · rw [List.map_append]
    rw [List.nodup_append]
    refine ⟨hk, List.nodup_singleton room, ?_⟩
    intro x hx hx2
    simp only [List.map_cons, List.map_nil, List.mem_singleton] at hx2
    exact hnr (hx2 ▸ hx)
  · intro p hp
    rcases List.mem_append.mp hp with hp1 | hp2
    · exact hm p hp1
    · rw [List.mem_singleton.mp hp2]
      exact List.nodup_nil

theorem roomsWF_mapUpdate_setAdd {rs : List (String × List String)}
    (h : RoomsWF rs) (room uid : String) :
    RoomsWF (mapUpdate rs room (fun ms => setAdd ms uid)) := by
  obtain ⟨hk, hm⟩ := h
  constructor
  · rw [mapUpdate_keys]
    exact hk
  · intro p hp
    obtain ⟨q, hq, rfl⟩ := List.mem_map.mp hp
    by_cases hqr : q.1 = room
    · rw [if_pos hqr]
      exact setAdd_nodup (hm q hq) uid
    · rw [if_neg hqr]
      exact hm q hq

theorem roomsWF_ensureRoom {rs : List (String × List String)}
    (h : RoomsWF rs) (room : String) : RoomsWF (ensureRoom rs room) := by
  unfold ensureRoom
  by_cases hh : mapHas rs room = true
  · rw [if_pos hh]
    exact h
  · rw [if_neg hh]
    apply roomsWF_append_new h
    intro hr
    exact hh ((mapHas_iff_mem_keys _ _).mpr hr)

theorem mem_ensureRoom_of_ne {rs : List (String × List String)}
    {room : String} {q : String × List String} (hq : q ∈ ensureRoom rs room)
    (hne : q.1 ≠ room) : q ∈ rs := by
  unfold ensureRoom at hq
  by_cases hh : mapHas rs room = true
  · rwa [if_pos hh] at hq
  · rw [if_neg hh] at hq
    rcases List.mem_append.mp hq with h1 | h2
    · exact h1
    · rw [List.mem_singleton.mp h2] at hne
      exact absurd rfl hne

theorem countP_ensureRoom_skip {rs : List (String × List String)}
    {room : String} {pred : String × List String → Bool}
    (hz : pred (room, []) = false) :
    (ensureRoom rs room).countP pred = rs.countP pred := by
  unfold ensureRoom
  by_cases hh : mapHas rs room = true
  · rw [if_pos hh]
  · rw [if_neg hh, List.countP_append]
    simp [List.countP_cons, hz]

theorem countP_mapUpdate_eq {α : Type} (m : List (String × α)) (k : String)
    (f : α → α) (pred : String × α → Bool)
    (hf : ∀ p ∈ m, p.1 = k → pred (p.1, f p.2) = pred p) :
    (mapUpdate m k f).countP pred = m.countP pred := by
  unfold mapUpdate
  rw [List.countP_map]
  apply List.countP_congr
  intro q hq
  show pred (if q.1 = k then (q.1, f q.2) else q) = true ↔ pred q = true
  by_cases hqr : q.1 = k
  · rw [if_pos hqr, hf q hq hqr]
  · rw [if_neg hqr]

theorem roomsWF_joinRoomRooms {rs : List (String × List String)}
    (h : RoomsWF rs) (uid room : String) :
    RoomsWF (joinRoomRooms rs uid room) := by
  unfold joinRoomRooms
  exact roomsWF_mapUpdate_setAdd
    (roomsWF_ensureRoom (roomsWF_erased h uid room) room) room uid

theorem not_mem_erased_of_ne_room {rs : List (String × List String)}
    (hm : ∀ p ∈ rs, p.2.Nodup) (uid room : String) :
    ∀ p ∈ rs.map (fun p =>
      if p.1 = room then p else (p.1, p.2.erase uid)),
      p.1 ≠ room → uid ∉ p.2 := by
  intro p hp hne
  obtain ⟨q, hq, rfl⟩ := List.mem_map.mp hp
  by_cases hqr : q.1 = room
  · rw [if_pos hqr] at hne
    exact absurd hqr hne
  · rw [if_neg hqr]
    intro hin
    exact (((hm q hq).mem_erase_iff).mp hin).1 rfl

theorem mem_snd_joinRoomRooms {rs : List (String × List String)}
    (hwf : RoomsWF rs) (uid room : String) :
    ∀ p ∈ joinRoomRooms rs uid room, (uid ∈ p.2 ↔ p.1 = room) := by
  obtain ⟨hk, hm⟩ := hwf
  intro p hp
  unfold joinRoomRooms mapUpdate at hp
  obtain ⟨q, hq, rfl⟩ := List.mem_map.mp hp
  by_cases hqr : q.1 = room
  · rw [if_pos hqr]
    simp [hqr, mem_setAdd_self]
  · rw [if_neg hqr]
    have hq1 : q ∈ rs.map (fun p =>
        if p.1 = room then p else (p.1, p.2.erase uid)) :=
      mem_ensureRoom_of_ne hq hqr
    have hnm := not_mem_erased_of_ne_room hm uid room q hq1 hqr
    constructor
    · intro hin
      exact absurd hin hnm
    · intro he
      exact absurd he hqr

theorem atMostOne_joinRoomRooms_self {rs : List (String × List String)}
    (hwf : RoomsWF rs) (uid room : String) :
    AtMostOneRoom (joinRoomRooms rs uid room) uid := by
  have hchar := mem_snd_joinRoomRooms hwf uid room
  have hwf2 := roomsWF_joinRoomRooms hwf uid room
  unfold AtMostOneRoom
  have hcong : (joinRoomRooms rs uid room).countP
      (fun p => decide (uid ∈ p.2)) =
      (joinRoomRooms rs uid room).countP (fun p => decide (p.1 = room)) := by
    apply List.countP_congr
    intro p hp
    simp [hchar p hp]
  rw [hcong]
  have hmap : (joinRoomRooms rs uid room).countP
      (fun p => decide (p.1 = room)) =
      ((joinRoomRooms rs uid room).map Prod.fst).countP
      (fun k => decide (k = room)) := by
    rw [List.countP_map]
    rfl
  rw [hmap]
  exact countP_key_le_one hwf2.1 room

theorem countP_erased_eq {rs : List (String × List String)}
    {u uid : String} (hne : u ≠ uid) (room : String) :
    (rs.map (fun p =>
      if p.1 = room then p else (p.1, p.2.erase uid))).countP
      (fun p => decide (u ∈ p.2)) =
    rs.countP (fun p => decide (u ∈ p.2)) := by
  rw [List.countP_map]
  apply List.countP_congr
  intro q _
  show decide (u ∈ (if q.1 = room then q else (q.1, q.2.erase uid)).2) =
      true ↔ decide (u ∈ q.2) = true
  by_cases hqr : q.1 = room
  · rw [if_pos hqr]
  · rw [if_neg hqr]
    simp only [decide_eq_true_eq]
    exact List.mem_erase_of_ne hne

theorem atMostOne_joinRoomRooms_other {rs : List (String × List String)}
    {u : String} (hone : AtMostOneRoom rs u) (uid room : String)
    (hne : u ≠ uid) : AtMostOneRoom (joinRoomRooms rs uid room) u := by
  unfold AtMostOneRoom at *
  unfold joinRoomRooms
  have hf : ∀ p ∈ ensureRoom (rs.map (fun p =>
      if p.1 = room then p else (p.1, p.2.erase uid))) room, p.1 = room →
      decide (u ∈ setAdd p.2 uid) = decide (u ∈ p.2) := by
    intro p _ _
    simp only [decide_eq_decide]
    rw [mem_setAdd_iff]
    constructor
    · rintro (h | h)
      · exact h
      · exact absurd h hne
    · exact Or.inl
  rw [countP_mapUpdate_eq _ _ _ _ hf]
  rw [countP_ensureRoom_skip (by simp)]
  rw [countP_erased_eq hne room]
  exact hone

theorem inv_of_eq {s s2 : ServerState} (h : Inv s)
    (hact : s2.activeUsers = s.activeUsers)
    (hrooms : s2.chatRooms = s.chatRooms) : Inv s2 := by
  unfold Inv at *
  rw [hact, hrooms]
  exact h

theorem inv_joinRooms {s : ServerState} (h : Inv s) (uid room : String) :
    Inv { s with chatRooms := joinRoomRooms s.chatRooms uid room } := by
  obtain ⟨hact, hwf, hone⟩ := h
  refine ⟨hact, roomsWF_joinRoomRooms hwf uid room, fun u => ?_⟩
  by_cases hu : u = uid
  · subst hu
    exact atMostOne_joinRoomRooms_self hwf u room
  · exact atMostOne_joinRoomRooms_other (hone u) uid room hu

theorem inv_step (s : ServerState) (e : InEvent) (h : Inv s) :
    Inv (step s e).1 := by
  obtain ⟨hact, hwf, hone⟩ := h
  cases e with
  | connectEvt uid =>
    exact ⟨setAdd_nodup hact uid, hwf, hone⟩
  | joinRoomEvt uid room ok =>
    have hs1 : (step s (InEvent.joinRoomEvt uid room ok)).1 =
        { s with chatRooms := joinRoomRooms s.chatRooms uid room } := by
      cases ok <;> simp [step, joinRoom]
    rw [hs1]
    exact inv_joinRooms ⟨hact, hwf, hone⟩ uid room
  | leaveRoomEvt uid room =>
    refine ⟨hact, ?_, ?_⟩ <;>
    · simp only [step, leaveRoom]
      by_cases hh : mapHas s.chatRooms room = true
      · obtain ⟨ms0, hg⟩ := mapGet_eq_some_of_has hh
        rw [if_pos hh]
        by_cases hz : (((mapGet s.chatRooms room).getD []).erase uid).length = 0
        · rw [if_pos hz]
          first
          | exact roomsWF_mapDelete hwf room
          | exact fun u => atMostOne_mapDelete (hone u) room
        · rw [if_neg hz]
          rw [hg]
          first
          | exact roomsWF_mapUpdate_const hwf hg uid
          | exact fun u => atMostOne_mapUpdate_erase hwf hg uid u (hone u)
      · rw [if_neg hh]
        first
        | exact hwf
        | exact hone
  | typingEvt uid room b =>
    refine inv_of_eq ⟨hact, hwf, hone⟩ ?_ ?_ <;>
    · simp only [step, typing]
      by_cases hc : room ≠ "" ∧ mapHas s.chatRooms room = true
      · rw [if_pos hc]
      · rw [if_neg hc]
  | stopTypingEvt uid room =>
    refine inv_of_eq ⟨hact, hwf, hone⟩ ?_ ?_ <;>
    · simp only [step, stopTyping]
      by_cases hc : mapHas s.typingUsers room = true
      · rw [if_pos hc]
      · rw [if_neg hc]
  | groupMessageEvt uid room content now saveErr =>
    refine inv_of_eq ⟨hact, hwf, hone⟩ ?_ ?_ <;>
    · simp only [step, groupMessage]
      by_cases h1 : room = "" ∨ content = ""
      · rw [if_pos h1]
      · rw [if_neg h1]
        by_cases h2 : mapHas s.chatRooms room = true
        · rw [if_neg (by simpa using h2)]
          by_cases h3 : uid ∈ (mapGet s.chatRooms room).getD []
          · rw [if_neg (by simpa using h3)]
            by_cases h4 : 5 ≤ (rateWindow
                ((mapGet s.messageTimestamps uid).getD []) now).length
            · rw [if_pos h4]
            · rw [if_neg h4]
              cases saveErr <;> rfl
          · rw [if_pos (by simpa using h3)]
        · rw [if_pos (by simpa using h2)]
  | privateMessageEvt uid toUser =>
    refine inv_of_eq ⟨hact, hwf, hone⟩ ?_ ?_ <;>
    · simp only [step, privateMessage]
      by_cases hc : toUser ∈ s.activeUsers
      · rw [if_pos hc]
      · rw [if_neg hc]
  | disconnectEvt uid =>
    exact ⟨hact.erase uid, roomsWF_eraseAll hwf uid,
      fun u => atMostOne_eraseAll (hone u) uid⟩

theorem inv_init : Inv initState := by
  refine ⟨List.nodup_nil, ⟨List.nodup_nil, ?_⟩, ?_⟩
  · intro p hp
    cases hp
  · intro u
    unfold AtMostOneRoom initState
    simp

theorem inv_reachable {s : ServerState} (h : Reachable s) : Inv s := by
  induction h with
  | init => exact inv_init
  | next e _ ih => exact inv_step _ e ih

/-- C2: in every reachable coordinator state — after any sequence of inbound
events — a participant id is a member of at most one room of the Room
Membership Table. -/
theorem c2_participant_in_at_most_one_room (s : ServerState)
    (h : Reachable s) (u : String) :
    s.chatRooms.countP (fun p => decide (u ∈ p.2)) ≤ 1 :=
  (inv_reachable h).2.2 u

theorem c2_witness :
    (step (step initState (InEvent.connectEvt "u")).1
      (InEvent.joinRoomEvt "u" "r1" true)).1.chatRooms.countP
      (fun p => decide ("u" ∈ p.2)) ≤ 1 :=
  c2_participant_in_at_most_one_room _
    (Reachable.next _ (Reachable.next _ Reachable.init)) "u"

theorem only_room_of_atMostOne {rs : List (String × List String)}
    {uid room : String}
    (hone : rs.countP (fun p => decide (uid ∈ p.2)) ≤ 1)
    (hmem : uid ∈ (mapGet rs room).getD []) :
    ∀ p ∈ rs, uid ∈ p.2 → p.1 = room := by
  obtain ⟨ms, hg⟩ : ∃ ms, mapGet rs room = some ms := by
    cases hgg : mapGet rs room with
    | none =>
      rw [hgg] at hmem
      simp at hmem
    | some ms => exact ⟨ms, rfl⟩
  have hpe : (room, ms) ∈ rs := mem_of_mapGet_some hg
  have hums : uid ∈ ms := by
    rw [hg] at hmem
    exact hmem
  intro p hp hupd
  have hlen : (rs.filter (fun p => decide (uid ∈ p.2))).length ≤ 1 := by
    rw [← List.countP_eq_length_filter]
    exact hone
  have h1 : (room, ms) ∈ rs.filter (fun p => decide (uid ∈ p.2)) :=
    List.mem_filter.mpr ⟨hpe, by simpa using hums⟩
  have h2 : p ∈ rs.filter (fun p => decide (uid ∈ p.2)) :=
    List.mem_filter.mpr ⟨hp, by simpa using hupd⟩
  have he := eq_of_mem_of_length_le_one hlen h2 h1
  rw [he]

/-- C9: joining the room the connection is already a member of is idempotent:
the whole coordinator state is unchanged — in particular no duplicate entry
appears in the room's member set — and the handler emits no userLeft and
exactly one userJoined besides the history snapshot and participant update. -/
theorem c9_rejoin_idempotent (s : ServerState) (uid room : String)
    (hreach : Reachable s)
    (hmem : uid ∈ (mapGet s.chatRooms room).getD []) :
    (joinRoom s uid room true).1 = s ∧
    (joinRoom s uid room true).2 =
      [OutEvent.chatHistory uid (historyQuery s.store room)
        ((mapGet s.chatRooms room).getD []),
       OutEvent.userJoined room uid,
       OutEvent.updateParticipants room
        ((mapGet s.chatRooms room).getD [])] := by
  obtain ⟨hact, hwf, hone⟩ := inv_reachable hreach
  have honly : ∀ p ∈ s.chatRooms, uid ∈ p.2 → p.1 = room :=
    only_room_of_atMostOne (hone uid) hmem
  obtain ⟨ms, hg⟩ : ∃ ms, mapGet s.chatRooms room = some ms := by
    cases hgg : mapGet s.chatRooms room with
    | none =>
      rw [hgg] at hmem
      simp at hmem
    | some ms => exact ⟨ms, rfl⟩
  have hums : uid ∈ ms := by
    rw [hg] at hmem
    exact hmem
  have hhas := mapHas_of_mapGet_some hg
  have hrs1 : s.chatRooms.map (fun p =>
      if p.1 = room then p else (p.1, p.2.erase uid)) = s.chatRooms := by
    have hpt : ∀ p ∈ s.chatRooms,
        (if p.1 = room then p else (p.1, p.2.erase uid)) = p := by
      intro p hp
      by_cases hpr : p.1 = room
      · rw [if_pos hpr]
      · rw [if_neg hpr]
        have hni : uid ∉ p.2 := fun hin => hpr (honly p hp hin)
        rw [List.erase_of_not_mem hni]
    rw [List.map_congr_left hpt, List.map_id']
  have hens : ensureRoom s.chatRooms room = s.chatRooms := by
    unfold ensureRoom
    rw [if_pos hhas]
  have hupd : mapUpdate s.chatRooms room (fun ms => setAdd ms uid) =
      s.chatRooms := by
    unfold mapUpdate
    have hpt : ∀ p ∈ s.chatRooms,
        (if p.1 = room then (p.1, setAdd p.2 uid) else p) = p := by
      intro p hp
      by_cases hpr : p.1 = room
      · rw [if_pos hpr]
        have hpms : p.2 = ms := by
          have hgp := mapGet_of_mem_of_nodup hwf.1 hp
          rw [hpr, hg] at hgp
          exact (Option.some.inj hgp).symm
        rw [hpms, setAdd_eq_of_mem hums, ← hpms]
      · rw [if_neg hpr]
    rw [List.map_congr_left hpt, List.map_id']
  have hjrr : joinRoomRooms s.chatRooms uid room = s.chatRooms := by
    unfold joinRoomRooms
    rw [hrs1, hens, hupd]
  have hleave : s.chatRooms.filterMap (fun p =>
      if uid ∈ p.2 ∧ p.1 ≠ room then some (OutEvent.userLeft p.1 uid)
      else none) = [] := by
    rw [List.filterMap_eq_nil_iff]
    intro p hp
    rw [if_neg]
    rintro ⟨h1, h2⟩
    exact h2 (honly p hp h1)
  constructor
  · have hfst : (joinRoom s uid room true).1 =
        { s with chatRooms := joinRoomRooms s.chatRooms uid room } := by
      simp [joinRoom]
    rw [hfst, hjrr]
  · simp [joinRoom, hleave, hjrr, hg]

theorem c9_witness : (joinRoom state9 "u" "r1" true).1 = state9 :=
  (c9_rejoin_idempotent state9 "u" "r1"
    (Reachable.next _ (Reachable.next _ Reachable.init)) (by decide)).1

theorem mapGet_mapDelete_self {α : Type} (m : List (String × α))
    (k : String) : mapGet (mapDelete m k) k = none := by
  unfold mapGet
  have hf : (mapDelete m k).find? (fun p => p.1 = k) = none := by
    rw [List.find?_eq_none]
    intro p hp
    have := keys_mapDelete_keyless m k p hp
    simpa using this
  rw [hf]
  rfl

theorem not_mem_snapshot_of_keyless {t : List (String × String)}
    {uid : String} (h : ∀ p ∈ t, p.1 ≠ uid) (room : String) :
    uid ∉ typingSnapshot t room := by
  intro hm
  obtain ⟨p, hp, hpe⟩ := List.mem_filterMap.mp hm
  by_cases hc : p.2 = room
  · rw [if_pos hc] at hpe
    exact h p hp (Option.some.inj hpe)
  · rw [if_neg hc] at hpe
    cases hpe

theorem keys_mapSet_keyless {α : Type} {k k2 : String} (hk : k ≠ k2) (v : α) :
    ∀ m : List (String × α), (∀ p ∈ m, p.1 ≠ k2) →
      ∀ p ∈ mapSet m k v, p.1 ≠ k2 := by
  intro m
  induction m with
  | nil =>
    intro _ p hp
    rw [List.mem_singleton.mp hp]
    exact hk
  | cons q rest ih =>
    intro h p hp
    simp only [mapSet] at hp
    by_cases hq : q.1 = k
    · rw [if_pos hq] at hp
      rcases List.mem_cons.mp hp with rfl | hp2
      · exact hk
      · exact h _ (List.mem_cons_of_mem _ hp2)
    · rw [if_neg hq] at hp
      rcases List.mem_cons.mp hp with rfl | hp2
      · exact h _ (List.mem_cons_self _ _)
      · exact ih (fun r hr => h r (List.mem_cons_of_mem _ hr)) p hp2

/-- C8: when a participant disconnects while holding a typing mark in a room
they are a member of, the room receives a `userLeft` for them; the disconnect
unregisters their presence, removes them from every room's member set and
clears their typing mark, so the typing snapshot of that room computed after
the disconnect — including the snapshot broadcast by any later typing event
of another user — no longer contains the participant. -/
theorem c8_disconnect_clears_typing (s : ServerState) (uid room : String)
    (hreach : Reachable s)
    (hmem : uid ∈ (mapGet s.chatRooms room).getD [])
    (_htyp : mapGet s.typingUsers uid = some room) :
    OutEvent.userLeft room uid ∈ (disconnect s uid).2 ∧
    uid ∉ (disconnect s uid).1.activeUsers ∧
    (∀ p ∈ (disconnect s uid).1.chatRooms, uid ∉ p.2) ∧
    mapGet (disconnect s uid).1.typingUsers uid = none ∧
    uid ∉ typingSnapshot (disconnect s uid).1.typingUsers room ∧
    ∀ v b snap, v ≠ uid →
      OutEvent.typingStatus room snap ∈
        (typing (disconnect s uid).1 v room b).2 →
      uid ∉ snap := by
  obtain ⟨hact, hwf, _⟩ := inv_reachable hreach
  obtain ⟨ms, hg⟩ : ∃ ms, mapGet s.chatRooms room = some ms := by
    cases hgg : mapGet s.chatRooms room with
    | none =>
      rw [hgg] at hmem
      simp at hmem
    | some ms => exact ⟨ms, rfl⟩
  have hums : uid ∈ ms := by
    rw [hg] at hmem
    exact hmem
  have hpe : (room, ms) ∈ s.chatRooms := mem_of_mapGet_some hg
  have hkeyless : ∀ p ∈ (disconnect s uid).1.typingUsers, p.1 ≠ uid :=
    fun p hp => keys_mapDelete_keyless s.typingUsers uid p hp
  refine ⟨?_, ?_, ?_, ?_, ?_, ?_⟩
  · show OutEvent.userLeft room uid ∈
      OutEvent.activeUsers (s.activeUsers.erase uid) ::
        s.chatRooms.filterMap (fun p =>
          if uid ∈ p.2 then some (OutEvent.userLeft p.1 uid) else none)
    apply List.mem_cons_of_mem
    apply List.mem_filterMap.mpr
    exact ⟨(room, ms), hpe, by rw [if_pos hums]⟩
  · intro hin
    exact ((hact.mem_erase_iff).mp hin).1 rfl
  · intro p hp
    obtain ⟨q, hq, rfl⟩ := List.mem_map.mp hp
    intro hin
    exact (((hwf.2 q hq).mem_erase_iff).mp hin).1 rfl
  · exact mapGet_mapDelete_self s.typingUsers uid
  · exact not_mem_snapshot_of_keyless hkeyless room
  · intro v b snap hv hsm
    unfold typing at hsm
    by_cases hc : room ≠ "" ∧
        mapHas (disconnect s uid).1.chatRooms room = true
    · rw [if_pos hc] at hsm
      have heq := List.mem_singleton.mp hsm
      injection heq with h1 h2
      rw [h2]
      cases b with
      | false =>
        simp only [Bool.false_eq_true, if_false]
        apply not_mem_snapshot_of_keyless _ room
        intro p hp
        exact hkeyless p (List.mem_of_mem_filter hp)
      | true =>
        simp only [if_true]
        exact not_mem_snapshot_of_keyless
          (keys_mapSet_keyless hv room _ hkeyless) room
    · rw [if_neg hc] at hsm
      cases hsm

theorem c8_witness :
    OutEvent.userLeft "r1" "u" ∈ (disconnect state8 "u").2 ∧
    mapGet (disconnect state8 "u").1.typingUsers "u" = none :=
  ⟨(c8_disconnect_clears_typing state8 "u" "r1"
      (Reachable.next _ (Reachable.next _ (Reachable.next _ Reachable.init)))
      (by decide) (by decide)).1,
   (c8_disconnect_clears_typing state8 "u" "r1"
      (Reachable.next _ (Reachable.next _ (Reachable.next _ Reachable.init)))
      (by decide) (by decide)).2.2.2.1⟩

/-- C4 is refuted at a concrete input: the transcript of `r1` holds 51
messages with creation times 0 through 50; the snapshot emitted on join
carries the 50 oldest messages (creation times 0..49), while the last 50
persisted messages ordered oldest-first are those with creation times
1..50. -/
theorem c4_counterexample :
    (joinRoom state51 "u" "r1" true).2 =
      [OutEvent.chatHistory "u"
        ((List.range 50).map (fun i => ⟨"m", "alice", "r1", i⟩)) ["u"],
       OutEvent.userJoined "r1" "u",
       OutEvent.updateParticipants "r1" ["u"]] ∧
    specLastFiftyOldestFirst state51.store "r1" =
      (List.range 50).map (fun i =>
        (⟨"m", "alice", "r1", i + 1⟩ : StoredMessage)) ∧
    (List.range 50).map (fun i => (⟨"m", "alice", "r1", i⟩ : StoredMessage)) ≠
      (List.range 50).map (fun i =>
        (⟨"m", "alice", "r1", i + 1⟩ : StoredMessage)) := by
  refine ⟨?_, ?_, ?_⟩ <;> decide

/-- C4 (amended): on every successful joinRoom the joining connection
receives a chatHistory snapshot carrying the room's participant list and the
oldest at most 50 persisted messages of the room, in ascending creation
order — when more than 50 exist, the 50 oldest rather than the 50 most
recent: every omitted transcript entry is at least as recent as every
included one. -/
theorem c4_amended_history_is_oldest_fifty (s : ServerState)
    (uid room : String) :
    OutEvent.chatHistory uid (historyQuery s.store room)
      ((mapGet (joinRoom s uid room true).1.chatRooms room).getD []) ∈
      (joinRoom s uid room true).2 ∧
    List.Pairwise (fun a b : StoredMessage => a.createdAt ≤ b.createdAt)
      (historyQuery s.store room) ∧
    (historyQuery s.store room).length =
      min 50 (s.store.filter (fun m => m.room = room)).length ∧
    (∀ m ∈ historyQuery s.store room, m ∈ s.store ∧ m.room = room) ∧
    (∀ m ∈ historyQuery s.store room,
      ∀ m2 ∈ ((s.store.filter (fun m3 => m3.room = room)).insertionSort
        (fun a b => a.createdAt ≤ b.createdAt)).drop 50,
      m.createdAt ≤ m2.createdAt) := by
  haveI htot : IsTotal StoredMessage
      (fun a b => a.createdAt ≤ b.createdAt) :=
    ⟨fun a b => Nat.le_total a.createdAt b.createdAt⟩
  haveI htrans : IsTrans StoredMessage
      (fun a b => a.createdAt ≤ b.createdAt) :=
    ⟨fun _ _ _ h1 h2 => Nat.le_trans h1 h2⟩
  have hq : historyQuery s.store room =
      ((s.store.filter (fun m => m.room = room)).insertionSort
        (fun a b => a.createdAt ≤ b.createdAt)).take 50 := rfl
  have hsort : List.Sorted (fun a b : StoredMessage =>
      a.createdAt ≤ b.createdAt)
      ((s.store.filter (fun m => m.room = room)).insertionSort
        (fun a b => a.createdAt ≤ b.createdAt)) :=
    List.sorted_insertionSort _ _
  have hperm := List.perm_insertionSort
    (fun a b : StoredMessage => a.createdAt ≤ b.createdAt)
    (s.store.filter (fun m => m.room = room))
  refine ⟨?_, ?_, ?_, ?_, ?_⟩
  · simp [joinRoom]
  · rw [hq]
    exact List.Pairwise.sublist (List.take_sublist _ _) hsort
  · rw [hq, List.length_take, hperm.length_eq]
  · intro m hm
    rw [hq] at hm
    have hmem : m ∈ (s.store.filter (fun m3 => m3.room = room)).insertionSort
        (fun a b => a.createdAt ≤ b.createdAt) :=
      List.Sublist.mem hm (List.take_sublist _ _)
    have hmf := List.mem_filter.mp (hperm.mem_iff.mp hmem)
    exact ⟨hmf.1, by simpa using hmf.2⟩
  · intro m hm m2 hm2
    rw [hq] at hm
    have hsplit := List.take_append_drop 50
      ((s.store.filter (fun m3 => m3.room = room)).insertionSort
        (fun a b => a.createdAt ≤ b.createdAt))
    have hp : List.Pairwise (fun a b : StoredMessage =>
        a.createdAt ≤ b.createdAt)
        (((s.store.filter (fun m3 => m3.room = room)).insertionSort
          (fun a b => a.createdAt ≤ b.createdAt)).take 50 ++
         ((s.store.filter (fun m3 => m3.room = room)).insertionSort
          (fun a b => a.createdAt ≤ b.createdAt)).drop 50) := by
      rw [hsplit]
      exact hsort
    exact (List.pairwise_append.mp hp).2.2 m hm m2 hm2

theorem c4_witness :
    OutEvent.chatHistory "u" (historyQuery state51.store "r1")
      ((mapGet (joinRoom state51 "u" "r1" true).1.chatRooms "r1").getD []) ∈
      (joinRoom state51 "u" "r1" true).2 :=
  (c4_amended_history_is_oldest_fifty state51 "u" "r1").1

end GlowSpace
